import Mathlib

/-!
Verification of the token-budget prompt compressor of the proxy repository.

The development shallowly embeds the compression core:
  * `main.py` : `compress_text`, `compress_chat_messages`
  * `proxy.py`: the near-duplicate `compress_text`, `compress_chat_messages`
  * `bench_compression.py`: `CompressedOpenAIChatCompletion._compress_messages`

The tiktoken encoding is external: it is modelled as a `Tokenizer` record of
fallible `encode`/`decode` functions (an exception raised by the adapter is an
`Except.error`, caught at the compressor boundary).  `random.sample(range(n), k)`
is modelled as an oracle `sample : Nat → Nat → Finset Nat`; theorems that need
the sample to be well-formed assume `sample n k ⊆ Finset.range n` and
`(sample n k).card = k`, which is what `random.sample` guarantees.  Python
floats are modelled as exact rationals; `int(x)` agrees with `⌊x⌋` on every
reachable operand because `token_count * (1 - 1/compression_ratio)` is
nonnegative whenever the `compression_ratio <= 1.0` guard has been passed.
-/

/-- The tokenizer adapter: `encode`/`decode` of the `cl100k_base` encoding.
Either call may raise; a raised exception is an `Except.error`. -/
structure Tokenizer where
  encode : String → Except String (List Nat)
  decode : List Nat → Except String String

/-- Characters stripped by Python's `str.strip()` (the `str.isspace` set). -/
def isPySpace (c : Char) : Bool :=
  c.toNat = 9 ∨ c.toNat = 10 ∨ c.toNat = 11 ∨ c.toNat = 12 ∨ c.toNat = 13 ∨
  c.toNat = 28 ∨ c.toNat = 29 ∨ c.toNat = 30 ∨ c.toNat = 31 ∨ c.toNat = 32 ∨
  c.toNat = 133 ∨ c.toNat = 160 ∨ c.toNat = 0x1680 ∨
  (0x2000 ≤ c.toNat ∧ c.toNat ≤ 0x200A) ∨
  c.toNat = 0x2028 ∨ c.toNat = 0x2029 ∨ c.toNat = 0x202F ∨
  c.toNat = 0x205F ∨ c.toNat = 0x3000

/-- Python's `not s.strip()`: `s` is empty or consists only of whitespace. -/
def isBlank (s : String) : Bool :=
  s.toList.all isPySpace

/-- Embedding of `int(token_count * (1 - 1/compression_ratio))` from `compress_text`.
Truncation towards zero coincides with `⌊·⌋` because the operand is
nonnegative on every path that reaches it (`compression_ratio > 1.0`). -/
def tokensToRemove (token_count : Nat) (compression_ratio : ℚ) : Int :=
  ⌊(token_count : ℚ) * (1 - 1 / compression_ratio)⌋

/-- Embedding of `[token for i, token in enumerate(tokens) if i not in indices_to_remove]`. -/
def retainedTokens (tokens : List Nat) (indices_to_remove : Finset Nat) : List Nat :=
  (tokens.enum.filter fun p => decide (p.1 ∉ indices_to_remove)).map Prod.snd

namespace Main

/-- Embedding of `main.py` `compress_text(text, compression_ratio)`.  `sample n k` stands
for `random.sample(range(n), k)`; logging is observability only and is not
modelled. -/
def compress_text (tok : Tokenizer) (sample : Nat → Nat → Finset Nat)
    (text : String) (compression_ratio : ℚ) : String :=
  if compression_ratio ≤ 1 then text
  else
    match tok.encode text with
    | .error _ => text
    | .ok tokens =>
      if tokens.length = 0 then text
      else
        let tokens_to_remove := tokensToRemove tokens.length compression_ratio
        if tokens_to_remove ≤ 0 then text
        else
          let indices_to_remove :=
            sample tokens.length (min tokens_to_remove.toNat tokens.length)
          match tok.decode (retainedTokens tokens indices_to_remove) with
          | .error _ => text
          | .ok compressed_text =>
            if isBlank compressed_text then text else compressed_text

/-- Number of calls `compress_text` makes to the tokenizer adapter
(`encode` plus `decode`), following the control flow of `compress_text`. -/
def tokenizerCalls (tok : Tokenizer) (sample : Nat → Nat → Finset Nat)
    (text : String) (compression_ratio : ℚ) : Nat :=
  if compression_ratio ≤ 1 then 0
  else
    match tok.encode text with
    | .error _ => 1
    | .ok tokens =>
      if tokens.length = 0 then 1
      else
        let tokens_to_remove := tokensToRemove tokens.length compression_ratio
        if tokens_to_remove ≤ 0 then 1
        else 2

end Main

/-- A JSON value, as delivered by `json.loads` on the request body. -/
inductive JsonVal where
  | str : String → JsonVal
  | num : Int → JsonVal
  | bool : Bool → JsonVal
  | null : JsonVal
  | arr : List JsonVal → JsonVal
  | obj : List (String × JsonVal) → JsonVal

/-- Python `d.get(key)` on a dict modelled as an association list (a Python
dict has each key at most once; insertion order is the list order). -/
def dictGet : List (String × JsonVal) → String → Option JsonVal
  | [], _ => none
  | (k', v') :: rest, k => if k' = k then some v' else dictGet rest k

/-- Python `d[key] = v` on a copy of the dict: replaces the value in place if
the key is present, otherwise appends the new key at the end. -/
def dictSet : List (String × JsonVal) → String → JsonVal → List (String × JsonVal)
  | [], k, v => [(k, v)]
  | (k', v') :: rest, k, v =>
    if k' = k then (k, v) :: rest else (k', v') :: dictSet rest k v

/-- Python `message.get("role") == "user"`: true exactly when the value is the
string `"user"` (comparison with a missing key's `None` is `False`). -/
def isUserRole : Option JsonVal → Bool
  | some (.str r) => r = "user"
  | _ => false

/-- The compression branch condition of `compress_chat_messages`: a dict
message whose `role` equals `"user"` and whose `content` — defaulting to
`""` when the key is missing — is a string. -/
def isCompressTarget : JsonVal → Bool
  | .obj kvs =>
    isUserRole (dictGet kvs "role") &&
      (match (dictGet kvs "content").getD (.str "") with
       | .str _ => true
       | _ => false)
  | _ => false

namespace Main

/-- Embedding of `main.py` `compress_chat_messages(messages, compression_ratio)`.
Counters and logging do not feed back into the result and are not modelled. -/
def compress_chat_messages (tok : Tokenizer) (sample : Nat → Nat → Finset Nat)
    (messages : List JsonVal) (compression_ratio : ℚ) : List JsonVal :=
  if compression_ratio ≤ 1 then messages
  else
    messages.map fun message =>
      match message with
      | .obj kvs =>
        -- `isinstance(message, dict) and message.get("role") == "user"`
        if isUserRole (dictGet kvs "role") then
          -- `content = message.get("content", "")`
          match (dictGet kvs "content").getD (.str "") with
          | .str content =>
            .obj (dictSet kvs "content"
              (.str (compress_text tok sample content compression_ratio)))
          | _ => message
        else message
      | _ => message

end Main

namespace Proxy

/-- Embedding of `proxy.py` `compress_text(text, compression_ratio)` (the near-duplicate
of the `main.py` one; only the logging set-up differs between the files). -/
def compress_text (tok : Tokenizer) (sample : Nat → Nat → Finset Nat)
    (text : String) (compression_ratio : ℚ) : String :=
  if compression_ratio ≤ 1 then text
  else
    match tok.encode text with
    | .error _ => text
    | .ok tokens =>
      if tokens.length = 0 then text
      else
        let tokens_to_remove := tokensToRemove tokens.length compression_ratio
        if tokens_to_remove ≤ 0 then text
        else
          let indices_to_remove :=
            sample tokens.length (min tokens_to_remove.toNat tokens.length)
          match tok.decode (retainedTokens tokens indices_to_remove) with
          | .error _ => text
          | .ok compressed_text =>
            if isBlank compressed_text then text else compressed_text

/-- Embedding of `proxy.py` `compress_chat_messages(messages, compression_ratio)`. -/
def compress_chat_messages (tok : Tokenizer) (sample : Nat → Nat → Finset Nat)
    (messages : List JsonVal) (compression_ratio : ℚ) : List JsonVal :=
  if compression_ratio ≤ 1 then messages
  else
    messages.map fun message =>
      match message with
      | .obj kvs =>
        if isUserRole (dictGet kvs "role") then
          match (dictGet kvs "content").getD (.str "") with
          | .str content =>
            .obj (dictSet kvs "content"
              (.str (compress_text tok sample content compression_ratio)))
          | _ => message
        else message
      | _ => message

end Proxy

namespace Bench

/-- Parameter names of `main.compress_text`, from its `def` line in `main.py`. -/
def compressTextParams : List String := ["text", "compression_ratio"]

/-- Python call semantics for a keyword call to `main.compress_text`: a keyword
argument whose name is not a parameter of the function raises `TypeError`
before the body runs; otherwise the body runs with the supplied
`compression_ratio`. -/
def callCompressTextKw (tok : Tokenizer) (sample : Nat → Nat → Finset Nat)
    (text : String) (kwargs : List (String × ℚ)) : Except String String :=
  if kwargs.all fun kv => compressTextParams.contains kv.1 then
    .ok (Main.compress_text tok sample text
      (((kwargs.lookup "compression_ratio").getD 1)))
  else
    .error "TypeError: compress_text() got an unexpected keyword argument"

/-- The per-message body of `CompressedOpenAIChatCompletion._compress_messages`
in `bench_compression.py`: deep-copy, then for user messages with string
content call `compress_text(content, compression_ratio=..., tokens_to_keep_ratio=...)`.
An uncaught exception from that call aborts the whole loop (`Except.error`). -/
def compressMessagesGo (tok : Tokenizer) (sample : Nat → Nat → Finset Nat)
    (compression_ratio tokens_to_keep_ratio : ℚ) :
    List JsonVal → Except String (List JsonVal)
  | [] => .ok []
  | msg :: rest =>
    let one : Except String JsonVal :=
      match msg with
      | .obj kvs =>
        match dictGet kvs "role", dictGet kvs "content" with
        | some (.str "user"), some (.str s) =>
          match callCompressTextKw tok sample s
              [("compression_ratio", compression_ratio),
               ("tokens_to_keep_ratio", tokens_to_keep_ratio)] with
          | .error e => .error e
          | .ok out => .ok (.obj (dictSet kvs "content" (.str out)))
        | _, _ => .ok msg
      | _ => .ok msg
    match one with
    | .error e => .error e
    | .ok m =>
      match compressMessagesGo tok sample compression_ratio tokens_to_keep_ratio rest with
      | .error e => .error e
      | .ok ms => .ok (m :: ms)

/-- Embedding of `CompressedOpenAIChatCompletion._compress_messages(messages)` from
`bench_compression.py`, with the instance fields
`_tokens_to_keep_ratio`/`_compression_ratio` passed explicitly (the benchmark
constructs the model with `tokens_to_keep_ratio=ratio, compression_ratio=1.0`). -/
def compress_messages (tok : Tokenizer) (sample : Nat → Nat → Finset Nat)
    (tokens_to_keep_ratio : Option ℚ) (compression_ratio : ℚ)
    (messages : List JsonVal) : Except String (List JsonVal) :=
  match tokens_to_keep_ratio with
  | none => .ok messages
  | some r =>
    if 1 ≤ r then .ok messages
    else compressMessagesGo tok sample compression_ratio r messages

end Bench

/-- A concrete tokenizer used for witnesses: one token per character. -/
def charTok : Tokenizer where
  encode s := .ok (s.toList.map Char.toNat)
  decode ts := .ok (String.mk (ts.map Char.ofNat))

/-- A tokenizer whose `encode` always raises, for the failure-path witnesses. -/
def failTok : Tokenizer where
  encode _ := .error "boom"
  decode _ := .error "boom"

/-- A concrete well-formed sampler: the first `k` indices. -/
def firstSample : Nat → Nat → Finset Nat := fun _ k => Finset.range k

example : Main.compress_text charTok firstSample "abcd" 2 = "cd" := by
  with_unfolding_all decide

example : Main.compress_text charTok firstSample "abcd" 1 = "abcd" := by
  with_unfolding_all decide

section DictLemmas

theorem dictGet_dictSet_ne (kvs : List (String × JsonVal)) (k k' : String)
    (v : JsonVal) (h : k' ≠ k) :
    dictGet (dictSet kvs k v) k' = dictGet kvs k' := by
  induction kvs with
  | nil => simp [dictSet, dictGet, Ne.symm h]
  | cons hd tl ih =>
    obtain ⟨k₀, v₀⟩ := hd
    by_cases hk : k₀ = k
    · subst hk
      simp [dictSet, dictGet, Ne.symm h]
    · by_cases hk' : k₀ = k'
      · simp [dictSet, dictGet, hk, hk', h]
      · simp [dictSet, dictGet, hk, hk', ih]

theorem dictSet_of_get_eq (kvs : List (String × JsonVal)) (k : String)
    (v : JsonVal) (h : dictGet kvs k = some v) :
    dictSet kvs k v = kvs := by
  induction kvs with
  | nil => simp [dictGet] at h
  | cons hd tl ih =>
    obtain ⟨k₀, v₀⟩ := hd
    by_cases hk : k₀ = k
    · subst hk
      simp [dictGet] at h
      simp [dictSet, h]
    · simp [dictGet, hk] at h
      simp [dictSet, hk, ih h]

theorem dictSet_of_get_none (kvs : List (String × JsonVal)) (k : String)
    (v : JsonVal) (h : dictGet kvs k = none) :
    dictSet kvs k v = kvs ++ [(k, v)] := by
  induction kvs with
  | nil => simp [dictSet]
  | cons hd tl ih =>
    obtain ⟨k₀, v₀⟩ := hd
    by_cases hk : k₀ = k
    · subst hk
      simp [dictGet] at h
    · simp [dictGet, hk] at h
      simp [dictSet, hk, ih h]

end DictLemmas

section CountLemmas

theorem tokensToRemove_nonneg (n : Nat) (c : ℚ) (h : 1 < c) :
    0 ≤ tokensToRemove n c := by
  unfold tokensToRemove
  rw [Int.floor_nonneg]
  have hc : 0 < c := lt_trans one_pos h
  have h1 : 1 / c ≤ 1 := by
    rw [div_le_one hc]
    exact le_of_lt h
  have h0 : (0 : ℚ) ≤ (n : ℚ) := Nat.cast_nonneg n
  nlinarith

theorem tokensToRemove_lt (n : Nat) (c : ℚ) (h : 1 < c) (hn : 0 < n) :
    tokensToRemove n c < n := by
  unfold tokensToRemove
  rw [Int.floor_lt]
  push_cast
  have hc : 0 < c := lt_trans one_pos h
  have h1 : 0 < 1 / c := by positivity
  have h0 : (0 : ℚ) < (n : ℚ) := by exact_mod_cast hn
  nlinarith

theorem length_filter_enumFrom (idx : Finset Nat) (l : List Nat) :
    ∀ k : Nat,
      ((List.enumFrom k l).filter fun p => decide (p.1 ∉ idx)).length
        = ((List.range' k l.length).filter fun i => decide (i ∉ idx)).length := by
  induction l with
  | nil => intro k; rfl
  | cons a t ih =>
    intro k
    rw [List.enumFrom_cons, List.length_cons, List.range'_succ,
      List.filter_cons, List.filter_cons]
    by_cases hk : k ∈ idx
    · rw [if_neg (by simp [hk]), if_neg (by simp [hk])]
      exact ih (k + 1)
    · rw [if_pos (by simp [hk]), if_pos (by simp [hk])]
      rw [List.length_cons, List.length_cons, ih (k + 1)]

theorem length_filter_range_mem (idx : Finset Nat) :
    ∀ n : Nat,
      ((List.range n).filter fun i => decide (i ∈ idx)).length
        = (idx ∩ Finset.range n).card := by
  intro n
  induction n with
  | zero => simp
  | succ n ih =>
    rw [List.range_succ, List.filter_append, List.length_append, ih,
      Finset.range_succ]
    by_cases hn : n ∈ idx
    · rw [Finset.inter_insert_of_mem hn,
        Finset.card_insert_of_not_mem (by simp)]
      simp [hn]
    · rw [Finset.inter_insert_of_not_mem hn]
      simp [hn]

theorem length_retainedTokens (tokens : List Nat) (idx : Finset Nat)
    (hsub : idx ⊆ Finset.range tokens.length) :
    (retainedTokens tokens idx).length = tokens.length - idx.card := by
  unfold retainedTokens
  rw [List.length_map]
  have h1 : tokens.enum = List.enumFrom 0 tokens := rfl
  rw [h1, length_filter_enumFrom idx tokens 0, ← List.range_eq_range']
  have hsplit :=
    List.length_eq_countP_add_countP (fun i => decide (i ∈ idx)) (List.range tokens.length)
  have hcongr :
      List.countP (fun a => decide ¬(decide (a ∈ idx) = true)) (List.range tokens.length)
        = List.countP (fun i => decide (i ∉ idx)) (List.range tokens.length) := by
    apply List.countP_congr
    intro a _
    simp
  rw [hcongr] at hsplit
  rw [List.countP_eq_length_filter, List.countP_eq_length_filter,
    length_filter_range_mem idx tokens.length,
    Finset.inter_eq_left.mpr hsub] at hsplit
  rw [List.length_range] at hsplit
  omega

theorem retainedTokens_sublist (tokens : List Nat) (idx : Finset Nat) :
    (retainedTokens tokens idx).Sublist tokens := by
  have h := (List.filter_sublist
    (p := fun p => decide (p.1 ∉ idx)) tokens.enum).map Prod.snd
  rw [List.enum_map_snd] at h
  exact h

end CountLemmas

section PathLemmas

/-- Every return path of `compress_text` yields either the original text or a
decoded result that passed the non-blank validation. -/
theorem compress_text_cases (tok : Tokenizer) (sample : Nat → Nat → Finset Nat)
    (t : String) (c : ℚ) :
    Main.compress_text tok sample t c = t ∨
    ∃ s, Main.compress_text tok sample t c = s ∧ isBlank s = false := by
  unfold Main.compress_text
  dsimp only
  split
  · left; rfl
  · split
    · left; rfl
    · split
      · left; rfl
      · split
        · left; rfl
        · split
          · left; rfl
          · split
            · left; rfl
            · next s _ hblank =>
              right
              exact ⟨s, rfl, by simpa using hblank⟩

end PathLemmas

/-- C4: for every ratio `c ≤ 1.0` the compressor returns the text unchanged and
performs no tokenizer-adapter call (neither `encode` nor `decode`). -/
theorem compress_noop_fast_path (tok : Tokenizer) (sample : Nat → Nat → Finset Nat)
    (t : String) (c : ℚ) (h : c ≤ 1) :
    Main.compress_text tok sample t c = t ∧
    Main.tokenizerCalls tok sample t c = 0 := by
  unfold Main.compress_text Main.tokenizerCalls
  rw [if_pos h, if_pos h]
  exact ⟨rfl, rfl⟩

/-- Witness for C4 at `t = "hello"`, `c = 1`. -/
theorem compress_noop_fast_path_witness :
    (1 : ℚ) ≤ 1 ∧
    Main.compress_text charTok firstSample "hello" 1 = "hello" ∧
    Main.tokenizerCalls charTok firstSample "hello" 1 = 0 := by
  refine ⟨by decide, ?_⟩
  exact compress_noop_fast_path charTok firstSample "hello" 1 (by decide)

/-- C6: `compress_text` is total and fail-open: a tokenizer exception during
`encode`, or during `decode` of the retained tokens, results in the original
text being returned unchanged. -/
theorem compress_fail_open (tok : Tokenizer) (sample : Nat → Nat → Finset Nat)
    (t : String) (c : ℚ) :
    (∀ e, tok.encode t = .error e → Main.compress_text tok sample t c = t) ∧
    (∀ tokens e, tok.encode t = .ok tokens →
      tok.decode (retainedTokens tokens (sample tokens.length
          (min (tokensToRemove tokens.length c).toNat tokens.length))) = .error e →
      Main.compress_text tok sample t c = t) := by
  constructor
  · intro e henc
    unfold Main.compress_text
    by_cases hc : c ≤ 1
    · rw [if_pos hc]
    · simp only [if_neg hc, henc]
  · intro tokens e henc hdec
    unfold Main.compress_text
    by_cases hc : c ≤ 1
    · rw [if_pos hc]
    · simp only [if_neg hc, henc]
      by_cases hlen : tokens.length = 0
      · rw [if_pos hlen]
      · simp only [if_neg hlen]
        by_cases hdrop : tokensToRemove tokens.length c ≤ 0
        · rw [if_pos hdrop]
        · simp only [if_neg hdrop, hdec]

/-- Witness for C6: with an always-raising tokenizer and with a
decode-raising tokenizer, the original text comes back. -/
theorem compress_fail_open_witness :
    failTok.encode "hello" = .error "boom" ∧
    Main.compress_text failTok firstSample "hello" 2 = "hello" := by
  refine ⟨rfl, ?_⟩
  exact (compress_fail_open failTok firstSample "hello" 2).1 "boom" rfl

/-- C7: the retained token sequence that `compress_text` hands to `decode` is
a sublist of the encoded token sequence: original relative order, no
permutation, no duplication. -/
theorem retained_order_preserved (tok : Tokenizer) (sample : Nat → Nat → Finset Nat)
    (t : String) (c : ℚ) (tokens : List Nat)
    (hc : 1 < c) (henc : tok.encode t = .ok tokens) :
    (retainedTokens tokens (sample tokens.length
        (min (tokensToRemove tokens.length c).toNat tokens.length))).Sublist tokens :=
  retainedTokens_sublist tokens _

/-- Witness for C7 at `t = "abcd"`, `c = 2`. -/
theorem retained_order_preserved_witness :
    (1 : ℚ) < 2 ∧ charTok.encode "abcd" = .ok [97, 98, 99, 100] ∧
    (retainedTokens [97, 98, 99, 100] (firstSample 4
        (min (tokensToRemove 4 2).toNat 4))).Sublist [97, 98, 99, 100] := by
  refine ⟨by decide, rfl, ?_⟩
  exact retained_order_preserved charTok firstSample "abcd" 2 [97, 98, 99, 100]
    (by decide) rfl

/-- C8: the `main.py` and `proxy.py` variants compute identical results for
both `compress_text` and `compress_chat_messages`, given the same tokenizer
and the same random-sample source. -/
theorem proxy_variants_equivalent :
    (∀ (tok : Tokenizer) (sample : Nat → Nat → Finset Nat) (t : String) (c : ℚ),
      Main.compress_text tok sample t c = Proxy.compress_text tok sample t c) ∧
    (∀ (tok : Tokenizer) (sample : Nat → Nat → Finset Nat)
      (messages : List JsonVal) (c : ℚ),
      Main.compress_chat_messages tok sample messages c
        = Proxy.compress_chat_messages tok sample messages c) :=
  ⟨fun _ _ _ _ => rfl, fun _ _ _ _ => rfl⟩

/-- C3: the benchmark's call
`compress_text(content, compression_ratio=1.0, tokens_to_keep_ratio=r)` does
not succeed: `main.compress_text` accepts no `tokens_to_keep_ratio` keyword,
so the call raises `TypeError` as soon as one user message with string content
is processed. -/
theorem bench_kwarg_call_fails :
    Bench.compressTextParams.contains "tokens_to_keep_ratio" = false ∧
    Bench.compress_messages charTok firstSample (some (1 / 2)) 1
        [JsonVal.obj [("role", .str "user"), ("content", .str "hello")]]
      = .error "TypeError: compress_text() got an unexpected keyword argument" := by
  constructor
  · rfl
  · with_unfolding_all rfl

/-- C1: for `c > 1` and a non-empty encoding of `n` tokens, with a well-formed
random sample, the compressor decodes exactly
`n - floor(n * (1 - 1/c))` retained tokens — returning the decode result
unless the blank fallback fires, in which case it returns the input — and
returns the input unchanged whenever `floor(n * (1 - 1/c)) = 0`. -/
theorem compress_length_bound (tok : Tokenizer) (sample : Nat → Nat → Finset Nat)
    (t : String) (c : ℚ) (tokens : List Nat)
    (hc : 1 < c) (henc : tok.encode t = .ok tokens) (hn : tokens.length ≠ 0)
    (hsub : sample tokens.length
        (min (tokensToRemove tokens.length c).toNat tokens.length)
      ⊆ Finset.range tokens.length)
    (hcard : (sample tokens.length
        (min (tokensToRemove tokens.length c).toNat tokens.length)).card
      = min (tokensToRemove tokens.length c).toNat tokens.length) :
    (tokensToRemove tokens.length c = 0 → Main.compress_text tok sample t c = t) ∧
    (0 < tokensToRemove tokens.length c →
      (retainedTokens tokens (sample tokens.length
          (min (tokensToRemove tokens.length c).toNat tokens.length))).length
        = tokens.length - (tokensToRemove tokens.length c).toNat ∧
      ∀ s, tok.decode (retainedTokens tokens (sample tokens.length
          (min (tokensToRemove tokens.length c).toNat tokens.length))) = .ok s →
        Main.compress_text tok sample t c = if isBlank s then t else s) := by
  have hcle : ¬c ≤ 1 := not_le.mpr hc
  constructor
  · intro h0
    unfold Main.compress_text
    simp only [if_neg hcle, henc, if_neg hn]
    rw [if_pos (le_of_eq h0)]
  · intro hpos
    have hlt := tokensToRemove_lt tokens.length c hc (Nat.pos_of_ne_zero hn)
    have hnonneg := tokensToRemove_nonneg tokens.length c hc
    have htn : (tokensToRemove tokens.length c).toNat < tokens.length :=
      (Int.toNat_lt hnonneg).mpr hlt
    have hmin : min (tokensToRemove tokens.length c).toNat tokens.length
        = (tokensToRemove tokens.length c).toNat := min_eq_left (le_of_lt htn)
    constructor
    · rw [length_retainedTokens tokens _ hsub, hcard, hmin]
    · intro s hdec
      unfold Main.compress_text
      simp only [if_neg hcle, henc, if_neg hn, if_neg (not_le.mpr hpos), hdec]

/-- Witness for C1 at `t = "abcd"`, `c = 2` with the character tokenizer and
the keep-the-first-`k`-indices sampler: two of four tokens are removed and
the result decodes the two retained tokens. -/
theorem compress_length_bound_witness :
    0 < tokensToRemove 4 2 ∧
    (retainedTokens [97, 98, 99, 100] (firstSample 4
        (min (tokensToRemove 4 2).toNat 4))).length = 4 - (tokensToRemove 4 2).toNat ∧
    Main.compress_text charTok firstSample "abcd" 2 = "cd" := by
  have hpos : 0 < tokensToRemove 4 2 := by with_unfolding_all decide
  have h := compress_length_bound charTok firstSample "abcd" 2 [97, 98, 99, 100]
    (by decide) rfl (by decide)
    (by with_unfolding_all decide) (by with_unfolding_all decide)
  have h2 := (h.2 hpos).2 "cd" (by with_unfolding_all rfl)
  refine ⟨hpos, (h.2 hpos).1, ?_⟩
  rw [h2]
  with_unfolding_all decide

/-- C5: on input that is not empty and not whitespace-only, `compress_text`
never returns anything empty or whitespace-only; whenever decoding the
retained tokens yields a blank string, the original text is returned. -/
theorem compress_nonblank (tok : Tokenizer) (sample : Nat → Nat → Finset Nat)
    (t : String) (c : ℚ) (h : isBlank t = false) :
    isBlank (Main.compress_text tok sample t c) = false ∧
    (∀ tokens s, tok.encode t = .ok tokens →
      tok.decode (retainedTokens tokens (sample tokens.length
          (min (tokensToRemove tokens.length c).toNat tokens.length))) = .ok s →
      isBlank s = true → Main.compress_text tok sample t c = t) := by
  constructor
  · rcases compress_text_cases tok sample t c with heq | ⟨s, heq, hs⟩
    · rw [heq]; exact h
    · rw [heq]; exact hs
  · intro tokens s henc hdec hblank
    unfold Main.compress_text
    by_cases hc : c ≤ 1
    · rw [if_pos hc]
    · simp only [if_neg hc, henc]
      by_cases hlen : tokens.length = 0
      · rw [if_pos hlen]
      · simp only [if_neg hlen]
        by_cases hdrop : tokensToRemove tokens.length c ≤ 0
        · rw [if_pos hdrop]
        · simp only [if_neg hdrop, hdec, hblank, if_true]

/-- Witness for C5 at `t = "hi"`, `c = 4`: dropping one of the two tokens
still leaves non-blank output. -/
theorem compress_nonblank_witness :
    isBlank "hi" = false ∧
    isBlank (Main.compress_text charTok firstSample "hi" 4) = false :=
  ⟨by decide, (compress_nonblank charTok firstSample "hi" 4 (by decide)).1⟩

/-- C2: `compress_chat_messages` preserves length and order; every message
outside the compression branch (not a dict, role not `"user"`, or content not
a string) is returned unchanged at its position, and a user message with
string content is returned as the same dict with only its `content` value
replaced by `compress_text` of the original content. -/
theorem rewrite_preserves_structure (tok : Tokenizer)
    (sample : Nat → Nat → Finset Nat) (messages : List JsonVal) (c : ℚ) :
    (Main.compress_chat_messages tok sample messages c).length
      = messages.length ∧
    (∀ i msg, messages.get? i = some msg → isCompressTarget msg = false →
      (Main.compress_chat_messages tok sample messages c).get? i = some msg) ∧
    (∀ i kvs s, messages.get? i = some (JsonVal.obj kvs) →
      isUserRole (dictGet kvs "role") = true →
      dictGet kvs "content" = some (JsonVal.str s) →
      (Main.compress_chat_messages tok sample messages c).get? i
        = some (JsonVal.obj (dictSet kvs "content"
            (JsonVal.str (Main.compress_text tok sample s c))))) := by
  unfold Main.compress_chat_messages
  by_cases hc : c ≤ 1
  · rw [if_pos hc]
    refine ⟨rfl, fun i msg hi _ => hi, ?_⟩
    intro i kvs s hi hrole hcontent
    have hct : Main.compress_text tok sample s c = s := by
      unfold Main.compress_text
      rw [if_pos hc]
    rw [hct, dictSet_of_get_eq kvs "content" (JsonVal.str s) hcontent]
    exact hi
  · rw [if_neg hc]
    refine ⟨by rw [List.length_map], ?_, ?_⟩
    · intro i msg hi htarget
      rw [List.get?_map, hi, Option.map_some']
      cases msg with
      | obj kvs =>
        dsimp only
        simp only [isCompressTarget, Bool.and_eq_false_iff] at htarget
        cases htarget with
        | inl h1 => simp [h1]
        | inr h2 =>
          by_cases hrole : isUserRole (dictGet kvs "role") = true
          · rw [if_pos hrole]
            cases hval : (dictGet kvs "content").getD (JsonVal.str "") with
            | str s => rw [hval] at h2; simp at h2
            | num n => rfl
            | bool b => rfl
            | null => rfl
            | arr xs => rfl
            | obj okvs => rfl
          · rw [if_neg hrole]
      | str s => rfl
      | num n => rfl
      | bool b => rfl
      | null => rfl
      | arr xs => rfl
    · intro i kvs s hi hrole hcontent
      rw [List.get?_map, hi, Option.map_some']
      dsimp only
      rw [if_pos hrole, hcontent, Option.getD_some]

/-- Witness for C2 on a two-message payload at `c = 2`: the system message is
untouched and the user message has exactly its content compressed. -/
theorem rewrite_preserves_structure_witness :
    isCompressTarget (JsonVal.obj [("role", JsonVal.str "system"),
        ("content", JsonVal.str "sys")]) = false ∧
    (Main.compress_chat_messages charTok firstSample
        [JsonVal.obj [("role", JsonVal.str "system"), ("content", JsonVal.str "sys")],
         JsonVal.obj [("role", JsonVal.str "user"), ("content", JsonVal.str "abcd")]]
        2).get? 0
      = some (JsonVal.obj [("role", JsonVal.str "system"),
          ("content", JsonVal.str "sys")]) ∧
    (Main.compress_chat_messages charTok firstSample
        [JsonVal.obj [("role", JsonVal.str "system"), ("content", JsonVal.str "sys")],
         JsonVal.obj [("role", JsonVal.str "user"), ("content", JsonVal.str "abcd")]]
        2).get? 1
      = some (JsonVal.obj (dictSet
          [("role", JsonVal.str "user"), ("content", JsonVal.str "abcd")]
          "content"
          (JsonVal.str (Main.compress_text charTok firstSample "abcd" 2)))) := by
  have h := rewrite_preserves_structure charTok firstSample
    [JsonVal.obj [("role", JsonVal.str "system"), ("content", JsonVal.str "sys")],
     JsonVal.obj [("role", JsonVal.str "user"), ("content", JsonVal.str "abcd")]] 2
  refine ⟨rfl, ?_, ?_⟩
  · exact h.2.1 0 (JsonVal.obj [("role", JsonVal.str "system"),
      ("content", JsonVal.str "sys")]) rfl rfl
  · exact h.2.2 1 [("role", JsonVal.str "user"), ("content", JsonVal.str "abcd")]
      "abcd" rfl rfl rfl

/-- C9: for `c > 1`, a user-role dict message with no `"content"` key is not
passed through unchanged: `message.get("content", "")` supplies the string
`""`, which goes through `compress_text` (the empty encoding short-circuits
to `""`), and the copy gains a `"content"` key holding `""`. -/
theorem missing_content_gets_empty_string (tok : Tokenizer)
    (sample : Nat → Nat → Finset Nat) (msgs : List JsonVal) (c : ℚ)
    (i : Nat) (kvs : List (String × JsonVal))
    (hc : 1 < c) (hrole : isUserRole (dictGet kvs "role") = true)
    (hnone : dictGet kvs "content" = none)
    (hempty : tok.encode "" = .ok [])
    (hi : msgs.get? i = some (JsonVal.obj kvs)) :
    (Main.compress_chat_messages tok sample msgs c).get? i
      = some (JsonVal.obj (kvs ++ [("content", JsonVal.str "")])) ∧
    JsonVal.obj (kvs ++ [("content", JsonVal.str "")]) ≠ JsonVal.obj kvs := by
  have hct : Main.compress_text tok sample "" c = "" := by
    unfold Main.compress_text
    rw [if_neg (not_le.mpr hc)]
    simp only [hempty, List.length_nil]
    simp
  constructor
  · unfold Main.compress_chat_messages
    rw [if_neg (not_le.mpr hc), List.get?_map, hi, Option.map_some']
    dsimp only
    rw [if_pos hrole, hnone, Option.getD_none]
    dsimp only
    rw [hct, dictSet_of_get_none kvs "content" (JsonVal.str "") hnone]
  · intro h
    have h' : kvs ++ [("content", JsonVal.str "")] = kvs := by
      injection h
    have hlen := congrArg List.length h'
    simp at hlen

/-- Witness for C9: a user message `{"role": "user"}` with `c = 2` comes back
as `{"role": "user", "content": ""}`. -/
theorem missing_content_gets_empty_string_witness :
    (Main.compress_chat_messages charTok firstSample
        [JsonVal.obj [("role", JsonVal.str "user")]] 2).get? 0
      = some (JsonVal.obj [("role", JsonVal.str "user"),
          ("content", JsonVal.str "")]) ∧
    JsonVal.obj [("role", JsonVal.str "user"), ("content", JsonVal.str "")]
      ≠ JsonVal.obj [("role", JsonVal.str "user")] := by
  have h := missing_content_gets_empty_string charTok firstSample
    [JsonVal.obj [("role", JsonVal.str "user")]] 2 0
    [("role", JsonVal.str "user")] (by decide) rfl rfl rfl rfl
  exact h

/-- C10: the rewrite is pure on the model and never loses sibling keys: for
every dict message in the input, the message at the same output position is a
dict in which every key other than `"content"` maps to the same value as in
the input. -/
theorem rewrite_preserves_other_keys (tok : Tokenizer)
    (sample : Nat → Nat → Finset Nat) (msgs : List JsonVal) (c : ℚ)
    (i : Nat) (kvs : List (String × JsonVal))
    (hi : msgs.get? i = some (JsonVal.obj kvs)) :
    ∃ kvs', (Main.compress_chat_messages tok sample msgs c).get? i
        = some (JsonVal.obj kvs') ∧
      ∀ k, k ≠ "content" → dictGet kvs' k = dictGet kvs k := by
  unfold Main.compress_chat_messages
  by_cases hc : c ≤ 1
  · rw [if_pos hc]
    exact ⟨kvs, hi, fun k _ => rfl⟩
  · rw [if_neg hc, List.get?_map, hi, Option.map_some']
    dsimp only
    by_cases hrole : isUserRole (dictGet kvs "role") = true
    · rw [if_pos hrole]
      cases hval : (dictGet kvs "content").getD (JsonVal.str "") with
      | str s =>
        exact ⟨dictSet kvs "content"
            (JsonVal.str (Main.compress_text tok sample s c)), rfl,
          fun k hk => dictGet_dictSet_ne kvs "content" k _ hk⟩
      | num n => exact ⟨kvs, rfl, fun k _ => rfl⟩
      | bool b => exact ⟨kvs, rfl, fun k _ => rfl⟩
      | null => exact ⟨kvs, rfl, fun k _ => rfl⟩
      | arr xs => exact ⟨kvs, rfl, fun k _ => rfl⟩
      | obj okvs => exact ⟨kvs, rfl, fun k _ => rfl⟩
    · rw [if_neg hrole]
      exact ⟨kvs, rfl, fun k _ => rfl⟩

/-- Witness for C10 on `{"role": "user", "content": "abcd", "name": "n"}` at
`c = 2`: the output at position 0 is a dict whose non-`content` keys are
unchanged. -/
theorem rewrite_preserves_other_keys_witness :
    ∃ kvs', (Main.compress_chat_messages charTok firstSample
        [JsonVal.obj [("role", JsonVal.str "user"),
          ("content", JsonVal.str "abcd"), ("name", JsonVal.str "n")]] 2).get? 0
        = some (JsonVal.obj kvs') ∧
      ∀ k, k ≠ "content" →
        dictGet kvs' k = dictGet [("role", JsonVal.str "user"),
          ("content", JsonVal.str "abcd"), ("name", JsonVal.str "n")] k :=
  rewrite_preserves_other_keys charTok firstSample
    [JsonVal.obj [("role", JsonVal.str "user"),
      ("content", JsonVal.str "abcd"), ("name", JsonVal.str "n")]] 2 0
    [("role", JsonVal.str "user"), ("content", JsonVal.str "abcd"),
      ("name", JsonVal.str "n")] rfl
